import Mathlib

/-!
Verification of the grasp-and-lift EEG dataset loader
(`pl_bolts/datasets/grasp_and_lift_eeg_detection.py`).

The development shallowly embeds the loading logic as executable Lean
functions: tensors become a dtype tag plus a list of time-step columns of
rational values, Python exceptions become `Except` errors, and the
`__getitem__` window search becomes the recursive `seek` function.
-/

/-- Numeric dtype of a tensor.  `torch.Tensor(list)` always builds a
float32 tensor; float64 and int64 are included so the spec's claimed
dtypes can be compared with the code's. -/
inductive Dtype
  | float32
  | float64
  | int64
deriving DecidableEq

/-- Shallow model of a 2-D `torch` tensor of shape `[channels, T]`.
`data` is the list of the `T` time-step columns (the code builds the
tensor by concatenating per-row column vectors along `dim=1`). -/
structure Tensor where
  dtype : Dtype
  data : List (List Rat)
deriving DecidableEq

/-- `t.shape[1]`, the number of time steps. -/
def Tensor.cols (t : Tensor) : Nat := t.data.length

/-- Placeholder tensor used as a default for list lookups. -/
def emptyT : Tensor := ⟨Dtype.float32, []⟩

/-- Python exceptions raised by the loader. -/
inductive PyErr
  | valueError
  | typeError
  | indexError
  | nameError
deriving DecidableEq

deriving instance DecidableEq for Except

/-- Per-series window count: the code (`load_from_csv` line 139 and
`__getitem__` line 252) computes `x.shape[1] - self.num_samples + 1`
for each series, with no clamping at zero. -/
def windowCounts (lens : List Nat) (W : Nat) : List Int :=
  lens.map (fun (T : Nat) => (T : Int) - W + 1)

/-- `self.total_examples` as accumulated by `load_from_csv`:
the sum of the unclamped per-series window counts. -/
def totalExamples (lens : List Nat) (W : Nat) : Int :=
  (windowCounts lens W).sum

/-- The spec's claimed total: sum of `max 0 (T - W + 1)` per series. -/
def totalExamplesSpec (lens : List Nat) (W : Nat) : Int :=
  (lens.map (fun (T : Nat) => max 0 ((T : Int) - W + 1))).sum

/-- The index search loop of `__getitem__` (lines 250-256): walk the
series, and as long as `index >= ofs + num_examples` move past the
series, accumulating the offset; otherwise the current series is the
target and the local offset is `index - ofs`.  `none` models falling
through the loop to `raise ValueError(f"unable to seek {index}")`. -/
def seek : List Int → Int → Option (Nat × Int)
  | [], _ => none
  | c :: rest, index =>
      if c ≤ index then (seek rest (index - c)).map (fun p => (p.1 + 1, p.2))
      else some (0, index)

/-- Clamp a Python slice endpoint to `[0, T]`: a negative endpoint counts
from the end, then endpoints are clamped into range. -/
def pyIdx (T : Nat) (i : Int) : Nat :=
  if i < 0 then (max 0 ((T : Int) + i)).toNat else min i.toNat T

/-- `t[:, a:b]` with Python slice semantics along the time axis. -/
def sliceCols (t : Tensor) (a b : Int) : Tensor :=
  ⟨t.dtype, (t.data.drop (pyIdx t.cols a)).take (pyIdx t.cols b - pyIdx t.cols a)⟩

/-- `t[:, i]` with Python integer-index semantics: a negative index
counts from the end and an out-of-range index raises `IndexError`
(modelled as `none`). -/
def pyGetCol (t : Tensor) (i : Int) : Option (List Rat) :=
  let i' := if i < 0 then (t.cols : Int) + i else i
  if 0 ≤ i' ∧ i' < (t.cols : Int) then some (t.data.getD i'.toNat []) else none

/-- Label part of a `__getitem__` result: the empty placeholder `[]`
when no labels are loaded, a single label column when
`last_label_only` is set, or a label window otherwise. -/
inductive LabelRes
  | empty
  | col (v : List Rat)
  | win (t : Tensor)
deriving DecidableEq

/-- Total flattened window count over a list of loaded data tensors,
as accumulated by `load_from_csv`. -/
def totalExamplesOf (X : List Tensor) (W : Nat) : Int :=
  (windowCounts (X.map Tensor.cols) W).sum

/-- `__getitem__` with `num_samples = W` set (lines 249-268): find the
owning series and local offset with `seek`, slice the data window, and
produce the label result from the label list `Y` at the same position:
the single column at `j + W - 1` if `last_label_only`, else the
aligned window.  Errors: `valueError` models the final
`raise ValueError(f"unable to seek {index}")`, `indexError` a failing
label lookup. -/
def getitemW (X : List Tensor) (Y : Option (List Tensor)) (W : Nat)
    (lastLabelOnly : Bool) (index : Int) : Except PyErr (Tensor × LabelRes) :=
  match seek (windowCounts (X.map Tensor.cols) W) index with
  | none => .error .valueError
  | some (i, j) =>
      let x := X.getD i emptyT
      let xw := sliceCols x j (j + (W : Int))
      match Y with
      | none => .ok (xw, .empty)
      | some Ys =>
          match Ys[i]? with
          | none => .error .indexError
          | some yi =>
              if lastLabelOnly then
                match pyGetCol yi (j + (W : Int) - 1) with
                | none => .error .indexError
                | some v => .ok (xw, .col v)
              else .ok (xw, .win (sliceCols yi j (j + (W : Int))))

/-- The constructor's configuration check (`__init__` lines 105-106):
`ValueError` is raised exactly when `num_samples is None and
last_label_only`. -/
def lastLabelCheck (num_samples : Option Int) (last_label_only : Bool) : Bool :=
  num_samples.isNone && last_label_only

/-- Final lines of `load_from_bin` (166-173): walk the series in sorted
order, collect every data tensor into `X`, and append only the present
label tensors to `Y`, which is kept only when non-empty. -/
def loadXY (store : List (Tensor × Option Tensor)) :
    List Tensor × Option (List Tensor) :=
  let X := store.map Prod.fst
  let Y := store.filterMap Prod.snd
  (X, if 0 < Y.length then some Y else none)

example : seek [3, 2] 4 = some (1, 1) := by decide
example : seek [1] (-1) = some (0, -1) := by decide
example : seek [-1, 1] 0 = none := by decide
example : totalExamples [1] 3 = -1 := by decide

/-- If every window count is nonnegative and the index is at least the
total, the search falls through every series and fails. -/
theorem seek_eq_none (counts : List Int) (h : ∀ c ∈ counts, 0 ≤ c)
    (g : Int) (hg : counts.sum ≤ g) : seek counts g = none := by
  induction counts generalizing g with
  | nil => rfl
  | cons c rest ih =>
      have hc : 0 ≤ c := h c (List.mem_cons_self c rest)
      have hrest : ∀ x ∈ rest, 0 ≤ x := fun x hx => h x (List.mem_cons_of_mem c hx)
      have hsum : 0 ≤ rest.sum := List.sum_nonneg hrest
      have hcg : c ≤ g := by
        have := List.sum_cons (a := c) (l := rest)
        omega
      simp only [seek, if_pos hcg]
      rw [ih hrest (g - c) (by have := List.sum_cons (a := c) (l := rest); omega)]
      rfl

/-- For a nonnegative count list and a valid index, the search returns
a series position inside the list and a local offset inside the
window count of that series. -/
theorem seek_valid (counts : List Int) (h : ∀ c ∈ counts, 0 ≤ c)
    (g : Int) (hg0 : 0 ≤ g) (hlt : g < counts.sum) :
    ∃ i k, seek counts g = some (i, k) ∧ i < counts.length ∧ 0 ≤ k ∧
      k < counts.getD i 0 := by
  induction counts generalizing g with
  | nil => simp only [List.sum_nil] at hlt; omega
  | cons c rest ih =>
      have hrest : ∀ x ∈ rest, 0 ≤ x := fun x hx => h x (List.mem_cons_of_mem c hx)
      by_cases hcg : c ≤ g
      · have hlt' : g - c < rest.sum := by
          have := List.sum_cons (a := c) (l := rest)
          omega
        obtain ⟨i, k, hs, hi, hk0, hk⟩ := ih hrest (g - c) (by omega) hlt'
        refine ⟨i + 1, k, ?_, by simpa using Nat.succ_lt_succ hi, hk0, by simpa using hk⟩
        simp only [seek, if_pos hcg, hs, Option.map_some']
      · exact ⟨0, g, by simp only [seek, if_neg hcg], by simp, hg0, by simpa using not_le.mp hcg⟩

/-- Distinct valid indices are sent to distinct (series, offset) pairs. -/
theorem seek_inj (counts : List Int) (h : ∀ c ∈ counts, 0 ≤ c)
    (g g' : Int) (hg0 : 0 ≤ g) (hg0' : 0 ≤ g') (p : Nat × Int)
    (e : seek counts g = some p) (e' : seek counts g' = some p) : g = g' := by
  induction counts generalizing g g' p with
  | nil => simp [seek] at e
  | cons c rest ih =>
      have hrest : ∀ x ∈ rest, 0 ≤ x := fun x hx => h x (List.mem_cons_of_mem c hx)
      by_cases hcg : c ≤ g <;> by_cases hcg' : c ≤ g'
      · simp only [seek, if_pos hcg, Option.map_eq_some'] at e
        simp only [seek, if_pos hcg', Option.map_eq_some'] at e'
        obtain ⟨q, hq, hqp⟩ := e
        obtain ⟨q', hq', hqp'⟩ := e'
        have hqq : q.1 + 1 = q'.1 + 1 ∧ q.2 = q'.2 := by
          have := hqp.trans hqp'.symm
          simpa [Prod.ext_iff] using this
        have hq2 : q = q' := Prod.ext (by omega) hqq.2
        have := ih hrest (g - c) (g' - c) (by omega) (by omega) q hq (hq2 ▸ hq')
        omega
      · simp only [seek, if_pos hcg, Option.map_eq_some'] at e
        simp only [seek, if_neg hcg'] at e'
        obtain ⟨q, _, hqp⟩ := e
        have hp : (0, g') = p := Option.some.inj e'
        have h3 := hqp.trans hp.symm
        have : q.1 + 1 = 0 := congrArg Prod.fst h3
        omega
      · simp only [seek, if_neg hcg] at e
        simp only [seek, if_pos hcg', Option.map_eq_some'] at e'
        obtain ⟨q, _, hqp⟩ := e'
        have hp : (0, g) = p := Option.some.inj e
        have h3 := hqp.trans hp.symm
        have : q.1 + 1 = 0 := congrArg Prod.fst h3
        omega
      · simp only [seek, if_neg hcg] at e
        simp only [seek, if_neg hcg'] at e'
        have h1 : (0, g) = p := Option.some.inj e
        have h2 : (0, g') = p := Option.some.inj e'
        have := h1.trans h2.symm
        simpa [Prod.ext_iff] using this

/-- Every (series, offset) pair with an in-range offset is hit by some
valid index. -/
theorem seek_surj (counts : List Int) (h : ∀ c ∈ counts, 0 ≤ c)
    (i : Nat) (k : Int) (hi : i < counts.length) (hk0 : 0 ≤ k)
    (hk : k < counts.getD i 0) :
    ∃ g, 0 ≤ g ∧ g < counts.sum ∧ seek counts g = some (i, k) := by
  induction counts generalizing i with
  | nil => simp at hi
  | cons c rest ih =>
      have hrest : ∀ x ∈ rest, 0 ≤ x := fun x hx => h x (List.mem_cons_of_mem c hx)
      have hsum : 0 ≤ rest.sum := List.sum_nonneg hrest
      cases i with
      | zero =>
          refine ⟨k, hk0, ?_, ?_⟩
          · have hkc : k < c := by simpa using hk
            have := List.sum_cons (a := c) (l := rest)
            omega
          · have hkc : k < c := by simpa using hk
            simp only [seek, if_neg (not_le.mpr hkc)]
      | succ i =>
          obtain ⟨g, hg0, hglt, hgs⟩ := ih hrest i (by simpa using hi) (by simpa using hk)
          have hc : 0 ≤ c := h c (List.mem_cons_self c rest)
          refine ⟨c + g, by omega, ?_, ?_⟩
          · have := List.sum_cons (a := c) (l := rest)
            omega
          · simp only [seek, if_pos (by omega : c ≤ c + g)]
            rw [show c + g - c = g by omega, hgs]
            rfl

/-- Auxiliary to the counting lemmas: every window count derived from a
series not shorter than `W - 1` is nonnegative. -/
theorem windowCounts_nonneg (lens : List Nat) (W : Nat)
    (h : ∀ T ∈ lens, W ≤ T + 1) : ∀ c ∈ windowCounts lens W, 0 ≤ c := by
  intro c hcmem
  simp only [windowCounts, List.mem_map] at hcmem
  obtain ⟨T, hT, rfl⟩ := hcmem
  have := h T hT
  omega

/-- For a nonempty series list with nonnegative window counts, the
search fails exactly for indices at or past the total; in particular
negative indices never fail. -/
theorem seek_none_iff (counts : List Int) (h : ∀ c ∈ counts, 0 ≤ c)
    (hne : counts ≠ []) (g : Int) :
    seek counts g = none ↔ counts.sum ≤ g := by
  constructor
  · intro hnone
    by_contra hlt
    push_neg at hlt
    by_cases hg0 : 0 ≤ g
    · obtain ⟨i, k, hs, _, _, _⟩ := seek_valid counts h g hg0 hlt
      rw [hs] at hnone
      exact Option.noConfusion hnone
    · match counts, hne, h, hnone with
      | c :: rest, _, h, hnone =>
          have hc : 0 ≤ c := h c (List.mem_cons_self c rest)
          simp only [seek, if_neg (by omega : ¬ c ≤ g)] at hnone
          exact Option.noConfusion hnone
  · exact seek_eq_none counts h g

/-- `getitemW` produces the seek `ValueError` exactly when the window
search falls through every series: every other branch returns a result
or an `IndexError` from the label lookup. -/
theorem getitemW_valueError_iff (X : List Tensor) (Y : Option (List Tensor))
    (W : Nat) (llo : Bool) (g : Int) :
    getitemW X Y W llo g = .error PyErr.valueError ↔
      seek (windowCounts (X.map Tensor.cols) W) g = none := by
  cases hseek : seek (windowCounts (X.map Tensor.cols) W) g with
  | none => simp [getitemW, hseek]
  | some p =>
      obtain ⟨i, j⟩ := p
      simp only [getitemW, hseek]
      constructor
      · intro hres
        exfalso
        cases Y with
        | none => simp at hres
        | some Ys =>
            cases hY : Ys[i]? with
            | none => simp [hY] at hres
            | some yi =>
                cases hllo : llo with
                | false => simp [hY, hllo] at hres
                | true =>
                    cases hcol : pyGetCol yi ((j : Int) + (W : Int) - 1) with
                    | none => simp [hY, hllo, hcol] at hres
                    | some v => simp [hY, hllo, hcol] at hres
      · intro hcontra
        exact Option.noConfusion hcontra

/-- Claim C2 counterexample: a series of length 1 with window length 3
contributes `1 - 3 + 1 = -1` windows, not `max 0 (1 - 3 + 1) = 0`:
the code performs no clamping, and `length()` becomes negative. -/
theorem total_examples_no_clamp_counterex :
    totalExamples [1] 3 = -1 ∧ totalExamplesSpec [1] 3 = 0 := by decide

/-- Claim C2 (amended): each included series contributes the unclamped
`T - W + 1` to `total_examples`; when every series satisfies
`T ≥ W - 1` (no negative contribution) this agrees with the claimed
sum of `max 0 (T - W + 1)`. -/
theorem total_examples_eq_clamped_of_long (lens : List Nat) (W : Nat)
    (h : ∀ T ∈ lens, W ≤ T + 1) :
    totalExamples lens W = totalExamplesSpec lens W := by
  unfold totalExamples totalExamplesSpec windowCounts
  congr 1
  apply List.map_congr_left
  intro T hT
  have := h T hT
  omega

/-- Witness for the amended claim C2 at series lengths 5 and 3,
window length 3. -/
theorem total_examples_eq_clamped_witness :
    totalExamples [5, 3] 3 = totalExamplesSpec [5, 3] 3 :=
  total_examples_eq_clamped_of_long [5, 3] 3 (by decide)

/-- Claim C3 counterexample: with series lengths `[1, 3]` and window
length 3, the pair (series 1, offset 0) lies in the claimed target set
`0 ≤ k < T_1 - W + 1`, yet the total window count computed by the code
is `(1-3+1) + (3-3+1) = 0`, so no valid global index exists at all and
the lookup is not onto the target set. -/
theorem seek_not_surjective_counterex :
    (0 : Int) < (windowCounts [1, 3] 3).getD 1 0 ∧
    totalExamples [1, 3] 3 = 0 ∧
    ¬ ∃ g : Int, 0 ≤ g ∧ g < totalExamples [1, 3] 3 ∧
        seek (windowCounts [1, 3] 3) g = some (1, 0) := by
  refine ⟨by decide, by decide, ?_⟩
  rintro ⟨g, hg0, hlt, -⟩
  have htot : totalExamples [1, 3] 3 = 0 := by decide
  omega

/-- Claim C3 (amended): provided every included series has
`T ≥ W - 1` (so no window count is negative), the index lookup is a
bijection from the valid global indices onto the pairs
`(i, k)` with `0 ≤ k < T_i - W + 1`: it is total on valid indices,
injective, and surjective onto the target set. -/
theorem seek_bijection_of_nonneg (lens : List Nat) (W : Nat)
    (h : ∀ T ∈ lens, W ≤ T + 1) :
    (∀ g : Int, 0 ≤ g → g < totalExamples lens W →
        ∃ i k, seek (windowCounts lens W) g = some (i, k) ∧ i < lens.length ∧
          0 ≤ k ∧ k < (windowCounts lens W).getD i 0) ∧
    (∀ g g' : Int, 0 ≤ g → 0 ≤ g' → ∀ p, seek (windowCounts lens W) g = some p →
        seek (windowCounts lens W) g' = some p → g = g') ∧
    (∀ i, ∀ k : Int, i < lens.length → 0 ≤ k → k < (windowCounts lens W).getD i 0 →
        ∃ g, 0 ≤ g ∧ g < totalExamples lens W ∧
          seek (windowCounts lens W) g = some (i, k)) := by
  have hnn := windowCounts_nonneg lens W h
  have hlen : (windowCounts lens W).length = lens.length := by
    simp [windowCounts]
  refine ⟨?_, ?_, ?_⟩
  · intro g hg0 hlt
    obtain ⟨i, k, hs, hi, hk0, hk⟩ := seek_valid _ hnn g hg0 hlt
    rw [hlen] at hi
    exact ⟨i, k, hs, hi, hk0, hk⟩
  · intro g g' hg0 hg0' p e e'
    exact seek_inj _ hnn g g' hg0 hg0' p e e'
  · intro i k hi hk0 hk
    rw [← hlen] at hi
    exact seek_surj _ hnn i k hi hk0 hk

/-- Witness for the amended claim C3 at series lengths 3 and 4,
window length 3, global index 1. -/
theorem seek_bijection_witness :
    ∃ i k, seek (windowCounts [3, 4] 3) 1 = some (i, k) ∧
      i < ([3, 4] : List Nat).length ∧ 0 ≤ k ∧
      k < (windowCounts [3, 4] 3).getD i 0 :=
  (seek_bijection_of_nonneg [3, 4] 3 (by decide)).1 1 (by decide) (by decide)

/-- Concrete series of three time steps on one channel. -/
def t3 : Tensor := ⟨Dtype.float32, [[1], [2], [3]]⟩

/-- Claim C4 counterexample: with one series of length 3 and window
length 3, `get(-1)` does not raise: the search loop accepts the first
series (since `-1 < 1 = ofs + num_examples`) with local offset `-1`,
and the Python slice `x[:, -1 : 2]` silently yields an empty window. -/
theorem getitem_negative_index_no_error :
    getitemW [t3] none 3 false (-1) =
      Except.ok (⟨Dtype.float32, []⟩, LabelRes.empty) := by decide

/-- Claim C4 (amended): for a nonempty series list whose window counts
are all nonnegative, indexed retrieval raises the out-of-range
`ValueError` exactly when the index is at least `length()`; in
particular `get(length())` raises, no valid index raises it, and a
negative index does not trigger the range check. -/
theorem getitem_range_error_iff (X : List Tensor) (Y : Option (List Tensor))
    (W : Nat) (llo : Bool) (g : Int)
    (hc : ∀ x ∈ X, W ≤ x.cols + 1) (hX : X ≠ []) :
    getitemW X Y W llo g = .error PyErr.valueError ↔ totalExamplesOf X W ≤ g := by
  rw [getitemW_valueError_iff]
  have hnn : ∀ c ∈ windowCounts (X.map Tensor.cols) W, 0 ≤ c := by
    apply windowCounts_nonneg
    intro T hT
    obtain ⟨x, hx, rfl⟩ := List.mem_map.mp hT
    exact hc x hx
  have hne : windowCounts (X.map Tensor.cols) W ≠ [] := by
    intro hcontra
    apply hX
    have hlen2 : (windowCounts (X.map Tensor.cols) W).length = X.length := by
      simp only [windowCounts, List.length_map]
    rw [hcontra] at hlen2
    exact List.length_eq_zero.mp hlen2.symm
  exact seek_none_iff _ hnn hne g

/-- Witness for the amended claim C4: `get(5)` on a single series of
one window raises the range error. -/
theorem getitem_range_error_witness :
    getitemW [t3] none 3 false 5 = Except.error PyErr.valueError :=
  (getitem_range_error_iff [t3] none 3 false 5 (by decide) (by decide)).mpr (by decide)

/-- Claim C5: the constructor raises the configuration `ValueError`
exactly when `last_label_only` is set while `num_samples` is `None`. -/
theorem last_label_only_config_error_iff (ns : Option Int) (llo : Bool) :
    lastLabelCheck ns llo = true ↔ llo = true ∧ ns = none := by
  cases ns <;> cases llo <;> simp [lastLabelCheck]

/-- File paths are modelled as lists of characters, so that Python's
string slicing and searching become list operations. -/
abbrev PyStr := List Char

/-- `os.path.basename`: the characters after the last separator. -/
def basenameOf (p : PyStr) : PyStr :=
  p.foldl (fun acc c => if c = '/' then [] else acc ++ [c]) []

/-- Python `str.index(ch)`: position of the first occurrence, raising
`ValueError` when the character is absent. -/
def pyIndex (s : PyStr) (c : Char) : Except PyErr Nat :=
  match s.findIdx? (· = c) with
  | some i => .ok i
  | none => .error .valueError

/-- First position where `pat` occurs as a contiguous substring. -/
def pyFind (pat : PyStr) : PyStr → Option Nat
  | [] => if pat.isPrefixOf [] then some 0 else none
  | c :: t => if pat.isPrefixOf (c :: t) then some 0 else (pyFind pat t).map (· + 1)

/-- Python `str.index(sub)`: substring search raising `ValueError`. -/
def pyFindE (pat : PyStr) (s : PyStr) : Except PyErr Nat :=
  match pyFind pat s with
  | some i => .ok i
  | none => .error .valueError

/-- Python `int(str)` on the digit substrings the loader feeds it:
a nonempty all-digit string parses to its value, anything else raises
`ValueError`. -/
def pyInt (s : PyStr) : Except PyErr Int :=
  if s ≠ [] ∧ s.all Char.isDigit then
    .ok (s.foldl (fun acc c => acc * 10 + ((c.toNat : Int) - 48)) 0)
  else .error .valueError

/-- Subject-number extraction (`compile_bin` lines 200-202,
`load_from_bin` lines 147-149): `int(basename[4 : basename.index("_")])`. -/
def extractSubject (file : PyStr) : Except PyErr Int := do
  let subject := basenameOf file
  let i ← pyIndex subject '_'
  pyInt ((subject.take i).drop 4)

/-- The `"_series"` filename marker. -/
def seriesMarker : PyStr := ("_series").toList

/-- Series-number extraction (`compile_bin` lines 205-208,
`load_from_bin` lines 152-155): drop through `"_series"`, then parse
the digits up to the next underscore. -/
def extractSeriesNum (file : PyStr) : Except PyErr Int := do
  let ser := basenameOf file
  let i ← pyFindE seriesMarker ser
  let ser2 := ser.drop (i + 7)
  let j ← pyIndex ser2 '_'
  pyInt (ser2.take j)

/-- `"_data.csv"`. -/
def dataCsv : PyStr := ("_data.csv").toList

/-- `"_events.csv"`. -/
def eventsCsv : PyStr := ("_events.csv").toList

/-- `".bin"`. -/
def binExt : PyStr := (".bin").toList

/-- `"_data.csv.bin"`. -/
def dataCsvBin : PyStr := ("_data.csv.bin").toList

/-- `"_events.csv.bin"`. -/
def eventsCsvBin : PyStr := ("_events.csv.bin").toList

/-- Python `s[:-n]`. -/
def pyDropLast (l : PyStr) (n : Nat) : PyStr := l.take (l.length - n)

/-- Series key of a CSV file (`compile_bin` lines 211 and 229):
`file[: -len("_data.csv") if is_data else -len("_events.csv")]`. -/
def csvKey (file : PyStr) : PyStr :=
  if dataCsv.isSuffixOf file then pyDropLast file dataCsv.length
  else pyDropLast file eventsCsv.length

/-- Series key of a binary cache file (`load_from_bin` lines 158-159):
`file[: -len("_data.csv.bin") if is_data else -len("_events.csv.bin")]`. -/
def binKey (file : PyStr) : PyStr :=
  if dataCsvBin.isSuffixOf file then pyDropLast file dataCsvBin.length
  else pyDropLast file eventsCsvBin.length

/-- Python string comparison: lexicographic by character code. -/
def keyLt : PyStr → PyStr → Bool
  | _, [] => false
  | [], _ :: _ => true
  | a :: as, b :: bs => if a < b then true else if b < a then false else keyLt as bs

/-- Insert a key into an ascending list of keys. -/
def keyInsert (a : PyStr) : List PyStr → List PyStr
  | [] => [a]
  | b :: bs => if keyLt a b then a :: b :: bs else b :: keyInsert a bs

/-- `sorted(examples)`: the dictionary keys in ascending string order,
used identically by `compile_bin` (line 236) and `load_from_bin`
(line 168) to fix the canonical series ordering. -/
def sortKeys : List PyStr → List PyStr
  | [] => []
  | a :: as => keyInsert a (sortKeys as)

/-- The fixed 32-channel data header (class constant
`GRASPLIFT_DATA_HEADER`, including the newline kept by `readline`). -/
def GRASPLIFT_DATA_HEADER : String :=
  "id,Fp1,Fp2,F7,F3,Fz,F4,F8,FC5,FC1,FC2,FC6,T7,C3,Cz,C4,T8,TP9,CP5,CP1,CP2,CP6,TP10,P7,P3,Pz,P4,P8,PO9,O1,Oz,O2,PO10\n"

/-- The fixed 6-label events header (class constant
`GRASPLIFT_EVENTS_HEADER`). -/
def GRASPLIFT_EVENTS_HEADER : String :=
  "id,HandStart,FirstDigitTouch,BothStartLoadPhase,LiftOff,Replace,BothReleased\n"

/-- A CSV file's content: the header line (kept verbatim) and the
channel values of each subsequent row, with the leading row-id field
already split off as the code does with `split(",")[1:]`. -/
structure Csv where
  header : String
  rows : List (List Rat)
deriving DecidableEq

/-- The per-file parsing block of `compile_bin` (lines 211-228): check
the header against the expected constant (`raise ValueError("bad
header")` on mismatch), convert the channel values — `float(x)` for a
data file, `int(x)` for an events file (failing on non-integer text) —
and build the tensor column by column.  `torch.Tensor(channels)`
produces a float32 tensor for both file kinds. -/
def parse_file (is_data : Bool) (c : Csv) : Except PyErr Tensor :=
  if c.header ≠ (if is_data then GRASPLIFT_DATA_HEADER else GRASPLIFT_EVENTS_HEADER) then
    .error .valueError
  else if is_data then .ok ⟨Dtype.float32, c.rows⟩
  else if c.rows.all (fun r => r.all Rat.isInt) then .ok ⟨Dtype.float32, c.rows⟩
  else .error .valueError

/-- The dtype the spec claims parsing produces: float64 for data
files, integer for events files. -/
def specDtype (is_data : Bool) : Dtype :=
  if is_data then Dtype.float64 else Dtype.int64

/-- Token stream for the binary cache codec, modelling the serialized
form written by `torch.save` and read back by `torch.load`. -/
inductive Tok
  | tag (d : Dtype)
  | num (n : Nat)
  | val (q : Rat)
deriving DecidableEq

/-- Encode one time-step column as its length followed by its values. -/
def encodeCol (c : List Rat) : List Tok := Tok.num c.length :: c.map Tok.val

/-- Binary cache encoding of a tensor: dtype tag, column count, then
the encoded columns. -/
def encode (t : Tensor) : List Tok :=
  Tok.tag t.dtype :: Tok.num t.data.length :: (t.data.map encodeCol).flatten

/-- Read `n` values from the token stream. -/
def readVals : Nat → List Tok → Option (List Rat × List Tok)
  | 0, ts => some ([], ts)
  | n + 1, Tok.val q :: ts => (readVals n ts).map (fun p => (q :: p.1, p.2))
  | _ + 1, _ => none

/-- Read `n` encoded columns from the token stream. -/
def readCols : Nat → List Tok → Option (List (List Rat) × List Tok)
  | 0, ts => some ([], ts)
  | n + 1, Tok.num m :: ts => do
      let (c, ts') ← readVals m ts
      let (cs, ts2) ← readCols n ts'
      some (c :: cs, ts2)
  | _ + 1, _ => none

/-- Binary cache decoding; `none` models a corrupt stream. -/
def decode (ts : List Tok) : Option Tensor :=
  match ts with
  | Tok.tag d :: Tok.num n :: rest =>
      match readCols n rest with
      | some (cols, []) => some ⟨d, cols⟩
      | _ => none
  | _ => none

/-- Reading back an encoded column restores it and leaves the rest of
the stream untouched. -/
theorem readVals_encodeCol (c : List Rat) (ts : List Tok) :
    readVals c.length (c.map Tok.val ++ ts) = some (c, ts) := by
  induction c with
  | nil => rfl
  | cons q c ih => simp [readVals, ih]

/-- Reading back a run of encoded columns restores them. -/
theorem readCols_encode (cols : List (List Rat)) (ts : List Tok) :
    readCols cols.length ((cols.map encodeCol).flatten ++ ts) = some (cols, ts) := by
  induction cols with
  | nil => rfl
  | cons c cols ih =>
      simp only [List.map_cons, List.flatten_cons, List.length_cons, encodeCol,
        List.cons_append, List.append_assoc]
      simp [readCols, readVals_encodeCol, ih]

/-- The binary cache codec round-trips every tensor exactly:
shape, dtype and values are all preserved. -/
theorem decode_encode (t : Tensor) : decode (encode t) = some t := by
  obtain ⟨d, cols⟩ := t
  have h := readCols_encode cols []
  rw [List.append_nil] at h
  simp [encode, decode, h]

/-- Claim C9 counterexample: parsing produces float32 tensors for both
file kinds — `torch.Tensor(...)` has dtype float32 — so the events
labels are not stored as an integer array and the data values are not
stored as float64, contrary to the claimed dtypes. -/
theorem parse_dtype_counterex :
    parse_file false ⟨GRASPLIFT_EVENTS_HEADER, [[0, 1, 0, 0, 0, 0]]⟩ =
      .ok ⟨Dtype.float32, [[0, 1, 0, 0, 0, 0]]⟩ ∧
    Dtype.float32 ≠ specDtype false ∧
    parse_file true ⟨GRASPLIFT_DATA_HEADER, [[7]]⟩ = .ok ⟨Dtype.float32, [[7]]⟩ ∧
    Dtype.float32 ≠ specDtype true := by
  refine ⟨by decide, by decide, by decide, by decide⟩

/-- Claim C9 (amended): the binary codec round-trip preserves shape,
dtype and exact values of every stored tensor, and every tensor the
parser produces — data or events — has dtype float32 (not float64
for data or an integer dtype for labels). -/
theorem codec_roundtrip_and_dtype :
    (∀ t : Tensor, decode (encode t) = some t) ∧
    (∀ (b : Bool) (c : Csv) (t : Tensor), parse_file b c = .ok t →
      t.dtype = Dtype.float32) := by
  refine ⟨decode_encode, ?_⟩
  intro b c t h
  unfold parse_file at h
  by_cases h1 : c.header ≠ (if b then GRASPLIFT_DATA_HEADER else GRASPLIFT_EVENTS_HEADER)
  · rw [if_pos h1] at h
    exact Except.noConfusion h
  · rw [if_neg h1] at h
    by_cases h2 : b
    · rw [if_pos h2] at h
      injection h with h3
      rw [← h3]
    · rw [if_neg h2] at h
      by_cases h4 : c.rows.all (fun r => r.all Rat.isInt)
      · rw [if_pos h4] at h
        injection h with h3
        rw [← h3]
      · rw [if_neg h4] at h
        exact Except.noConfusion h

/-- Concrete two-step, one-channel tensor. -/
def tEx : Tensor := ⟨Dtype.float32, [[0], [1]]⟩

/-- Witness for the amended claim C9 at a concrete events file. -/
theorem codec_roundtrip_witness :
    decode (encode tEx) = some tEx ∧ tEx.dtype = Dtype.float32 :=
  ⟨codec_roundtrip_and_dtype.1 tEx,
   codec_roundtrip_and_dtype.2 false ⟨GRASPLIFT_EVENTS_HEADER, [[0], [1]]⟩ tEx (by decide)⟩

/-- A candidate suffix no longer than the right part of an append is a
suffix of the whole exactly when it is a suffix of the right part. -/
theorem suffix_append_right_iff {s l1 l2 : PyStr} (h : s.length ≤ l2.length) :
    s <:+ l1 ++ l2 ↔ s <:+ l2 := by
  constructor
  · rintro ⟨u, hu⟩
    have hlen : u.length + s.length = l1.length + l2.length := by
      have := congrArg List.length hu
      simpa using this
    have huL : l1.length ≤ u.length := by omega
    have hdrop : (u ++ s).drop u.length = s := by simp
    rw [hu, List.drop_append_eq_append_drop, List.drop_eq_nil_of_le huL,
      List.nil_append] at hdrop
    exact hdrop ▸ List.drop_suffix _ _
  · intro hs
    exact hs.trans (List.suffix_append l1 l2)

/-- Dropping a suffix's length from the end of an append recovers the
left part. -/
theorem pyDropLast_append (t s : PyStr) : pyDropLast (t ++ s) s.length = t := by
  unfold pyDropLast
  rw [List.length_append]
  rw [show t.length + s.length - s.length = t.length by omega]
  exact List.take_left t s

/-- Key parity between the two loading paths: for a well-formed CSV
file name, the binary-cache key of the `.bin` cache file equals the
CSV key of the source file, so both paths derive the same series
identifier. -/
theorem key_parity (f : PyStr)
    (h : dataCsv.isSuffixOf f = true ∨ eventsCsv.isSuffixOf f = true) :
    binKey (f ++ binExt) = csvKey f := by
  cases h with
  | inl hd =>
      obtain ⟨t, rfl⟩ := List.isSuffixOf_iff_suffix.mp hd
      have h1 : dataCsvBin.isSuffixOf (t ++ dataCsv ++ binExt) = true := by
        rw [List.isSuffixOf_iff_suffix, List.append_assoc,
          show dataCsv ++ binExt = dataCsvBin from rfl]
        exact List.suffix_append t dataCsvBin
      have h2 : dataCsv.isSuffixOf (t ++ dataCsv) = true := by
        rw [List.isSuffixOf_iff_suffix]
        exact List.suffix_append t dataCsv
      rw [binKey, if_pos h1, csvKey, if_pos h2, List.append_assoc,
        show dataCsv ++ binExt = dataCsvBin from rfl,
        show dataCsvBin.length = dataCsvBin.length from rfl,
        pyDropLast_append, pyDropLast_append]
  | inr he =>
      obtain ⟨t, rfl⟩ := List.isSuffixOf_iff_suffix.mp he
      have h1 : dataCsvBin.isSuffixOf (t ++ eventsCsv ++ binExt) = false := by
        rw [show (false : Bool) = decide False by rfl]
        rw [List.append_assoc, show eventsCsv ++ binExt = eventsCsvBin from rfl]
        apply Bool.eq_false_iff.mpr
        intro hcontra
        have := List.isSuffixOf_iff_suffix.mp hcontra
        have hsuf : dataCsvBin <:+ eventsCsvBin :=
          (suffix_append_right_iff (by decide)).mp this
        have : ¬ dataCsvBin <:+ eventsCsvBin := by decide
        exact this hsuf
      have h2 : dataCsv.isSuffixOf (t ++ eventsCsv) = false := by
        apply Bool.eq_false_iff.mpr
        intro hcontra
        have := List.isSuffixOf_iff_suffix.mp hcontra
        have hsuf : dataCsv <:+ eventsCsv :=
          (suffix_append_right_iff (by decide)).mp this
        have : ¬ dataCsv <:+ eventsCsv := by decide
        exact this hsuf
      rw [binKey, h1, csvKey, h2]
      simp only [Bool.false_eq_true, if_false]
      rw [List.append_assoc, show eventsCsv ++ binExt = eventsCsvBin from rfl,
        pyDropLast_append, pyDropLast_append]

/-- Claim C8 counterexample: the canonical ordering is the ascending
string sort of the series keys, which places `subj10_series1` before
`subj2_series1` even though subject 2 < subject 10 — so the ordering
is not sort-by-subject-number. -/
theorem sorted_keys_lex_counterex :
    sortKeys [("train/subj10_series1").toList, ("train/subj2_series1").toList] =
      [("train/subj10_series1").toList, ("train/subj2_series1").toList] ∧
    extractSubject (("train/subj10_series1").toList) = .ok 10 ∧
    extractSubject (("train/subj2_series1").toList) = .ok 2 := by
  refine ⟨by decide, by decide, by decide⟩

/-- Claim C8 (amended): the canonical series ordering is the ascending
lexicographic (string) sort of the series keys, not a numeric
subject/series sort; it is a pure function of the key set, and the CSV
path and binary-cache path derive identical keys for corresponding
files, hence identical orderings of the same directory contents. -/
theorem sorted_keys_path_parity (files : List PyStr)
    (h : ∀ f ∈ files, dataCsv.isSuffixOf f = true ∨ eventsCsv.isSuffixOf f = true) :
    sortKeys ((files.map (fun f => f ++ binExt)).map binKey) =
      sortKeys (files.map csvKey) := by
  congr 1
  rw [List.map_map]
  apply List.map_congr_left
  intro f hf
  exact key_parity f (h f hf)

/-- Witness for the amended claim C8 on a concrete pair of files. -/
theorem sorted_keys_path_parity_witness :
    sortKeys (((["subj1_series1_data.csv".toList,
        "subj1_series1_events.csv".toList]).map (fun f => f ++ binExt)).map binKey) =
      sortKeys ([ "subj1_series1_data.csv".toList,
        "subj1_series1_events.csv".toList].map csvKey) :=
  sorted_keys_path_parity _ (by decide)

/-- The `series` loop variable of `compile_bin`: it begins as the
optional series-filter argument, but line 229 rebinds it to the series
key string of every fully processed file. -/
inductive SeriesVar
  | noneV
  | listV (l : List Int)
  | strV (s : PyStr)
deriving DecidableEq

/-- Initial value of the `series` variable from the argument. -/
def SeriesVar.ofArg : Option (List Int) → SeriesVar
  | none => .noneV
  | some l => .listV l

/-- State threaded through the `compile_bin` file loop: the `examples`
dict (insertion-ordered association list), the `series` variable, and
the `samples` variable holding the most recently parsed tensor. -/
structure CompSt where
  examples : List (PyStr × (Option Tensor × Option Tensor))
  seriesVar : SeriesVar
  samplesVar : Option Tensor
deriving DecidableEq

/-- Dictionary lookup. -/
def findVal (k : PyStr) :
    List (PyStr × (Option Tensor × Option Tensor)) → Option (Option Tensor × Option Tensor)
  | [] => none
  | (k', v) :: rest => if k' = k then some v else findVal k rest

/-- Dictionary store: update in place or append a new key, as Python
dict assignment does. -/
def upsert (k : PyStr) (v : Option Tensor × Option Tensor) :
    List (PyStr × (Option Tensor × Option Tensor)) →
      List (PyStr × (Option Tensor × Option Tensor))
  | [] => [(k, v)]
  | (k', v') :: rest => if k' = k then (k', v) :: rest else (k', v') :: upsert k v rest

/-- The subjects filter block (`compile_bin` lines 200-204, identical
in `load_from_bin` lines 147-151): skip the file when its subject
number is not in the list. -/
def subjSkip (subjects : Option (List Int)) (file : PyStr) : Except PyErr Bool :=
  match subjects with
  | none => .ok false
  | some subs => (extractSubject file).map (fun s => !subs.contains s)

/-- The series filter block (`compile_bin` lines 205-210), evaluated
against the current `series` variable: once an earlier iteration has
rebound it to a key string, the membership test `ser not in series`
compares an `int` against a `str` and raises `TypeError`. -/
def serSkip (sv : SeriesVar) (file : PyStr) : Except PyErr Bool :=
  match sv with
  | .noneV => .ok false
  | .listV l => (extractSeriesNum file).map (fun s => !l.contains s)
  | .strV _ => do
      let _ ← extractSeriesNum file
      .error .typeError

/-- The file loop of `compile_bin` (lines 199-233): apply the two
filters, parse, compute the series key, update the `examples` dict,
and rebind the `series` and `samples` variables. -/
def compileLoop (subjects : Option (List Int)) :
    List (PyStr × Csv) → CompSt → Except PyErr CompSt
  | [], st => .ok st
  | (path, content) :: rest, st => do
      let skip1 ← subjSkip subjects path
      if skip1 then compileLoop subjects rest st
      else do
        let skip2 ← serSkip st.seriesVar path
        if skip2 then compileLoop subjects rest st
        else do
          let is_data := dataCsv.isSuffixOf path
          let samples ← parse_file is_data content
          let key := pyDropLast path (if is_data then dataCsv.length else eventsCsv.length)
          let item0 := (findVal key st.examples).getD (none, none)
          let item := if is_data then (some samples, item0.2) else (item0.1, some samples)
          compileLoop subjects rest ⟨upsert key item st.examples, .strV key, some samples⟩

/-- The output loop of `compile_bin` (lines 234-243): for each key in
sorted order, persist the current value of the `samples` variable —
not the arrays belonging to the series — under the `_data.csv.bin` cache name
(unconditionally) and additionally under `_events.csv.bin` when the
series has an events half, while collecting `X` and `Y`.  The
`nameError` branch models `samples` being unbound when no file was
processed. -/
def compileSave (sv : Option Tensor)
    (ex : List (PyStr × (Option Tensor × Option Tensor))) :
    List PyStr → Except PyErr (List (PyStr × Tensor) × List (Option Tensor) × List Tensor)
  | [] => .ok ([], [], [])
  | k :: ks => do
      let item := (findVal k ex).getD (none, none)
      let samples ← match sv with
        | some s => Except.ok s
        | none => Except.error PyErr.nameError
      let (saves, X, Y) ← compileSave sv ex ks
      match item.2 with
      | some yy =>
          .ok ((k ++ dataCsvBin, samples) :: (k ++ eventsCsvBin, samples) :: saves,
               item.1 :: X, yy :: Y)
      | none => .ok ((k ++ dataCsvBin, samples) :: saves, item.1 :: X, Y)

/-- `compile_bin` (lines 195-243): run the file loop, then the save
loop over the sorted keys, and return the persisted cache files
together with `X` and `Y if len(Y) > 0 else None`. -/
def compile_bin (subjects series : Option (List Int)) (csv_files : List (PyStr × Csv)) :
    Except PyErr (List (PyStr × Tensor) × List (Option Tensor) × Option (List Tensor)) := do
  let st ← compileLoop subjects csv_files ⟨[], SeriesVar.ofArg series, none⟩
  let (saves, X, Y) ← compileSave st.samplesVar st.examples
    (sortKeys (st.examples.map Prod.fst))
  .ok (saves, X, if 0 < Y.length then some Y else none)

/-- Events file of series (1,1). -/
def evPyStr : PyStr := ("subj1_series1_events.csv").toList

/-- Its one-row content. -/
def evCsv : Csv := ⟨GRASPLIFT_EVENTS_HEADER, [[0, 1, 0, 0, 0, 0]]⟩

/-- The tensor parsed from it. -/
def evT : Tensor := ⟨Dtype.float32, [[0, 1, 0, 0, 0, 0]]⟩

/-- Data file of series (1,1). -/
def dPyStr : PyStr := ("subj1_series1_data.csv").toList

/-- Its one-row content. -/
def dCsvFile : Csv := ⟨GRASPLIFT_DATA_HEADER, [[7]]⟩

/-- Claim C1 failing input: compiling a single events file persists
the events array under the `_data.csv.bin` cache key of the series (and
under `_events.csv.bin`): line 238 unconditionally saves the stale
`samples` variable as the data cache, so the `_data` cache of this
series holds the label array, not a data array. -/
theorem compile_bin_writes_stale_samples :
    compile_bin none none [(evPyStr, evCsv)] =
      .ok ([(("subj1_series1_data.csv.bin").toList, evT),
            (("subj1_series1_events.csv.bin").toList, evT)],
           [none], some [evT]) := by decide

/-- Claim C7 failing input: compiling the data and events files of one series
with no filters at all raises `TypeError`: after the first file is
processed, line 229 has rebound the `series` parameter to the series
key string, so the second file's filter check `ser not in series`
compares an `int` against a `str`. -/
theorem compile_bin_filter_type_error :
    compile_bin none none [(dPyStr, dCsvFile), (evPyStr, evCsv)] =
      .error PyErr.typeError := by decide

/-- `getD` through a `map` at an in-range position. -/
theorem getD_map_lt {α β : Type} (l : List α) (f : α → β) (i : Nat)
    (hi : i < l.length) (d : β) : (l.map f).getD i d = f (l.get ⟨i, hi⟩) := by
  rw [List.getD_eq_getElem?_getD, List.getElem?_map, List.getElem?_eq_getElem hi]
  simp [List.get_eq_getElem]

/-- When every series has its labels, the compaction keeps them all. -/
theorem filterMap_snd_all_some (store : List (Tensor × Option Tensor))
    (hall : ∀ s ∈ store, s.2.isSome = true) :
    store.filterMap Prod.snd = store.map (fun s => s.2.getD emptyT) := by
  induction store with
  | nil => rfl
  | cons a rest ih =>
      have ha := hall a (List.mem_cons_self a rest)
      obtain ⟨y, hy⟩ := Option.isSome_iff_exists.mp ha
      have hrest := fun s hs => hall s (List.mem_cons_of_mem a hs)
      simp [List.filterMap_cons, hy, ih hrest]

/-- With a nonempty store in which every series is labelled, the
loaded `Y` is the per-series label list in series order. -/
theorem loadXY_labels_all_some (store : List (Tensor × Option Tensor))
    (hall : ∀ s ∈ store, s.2.isSome = true) (hne : store ≠ []) :
    (loadXY store).2 = some (store.map (fun s => s.2.getD emptyT)) := by
  have hfm := filterMap_snd_all_some store hall
  have hlen : 0 < (store.filterMap Prod.snd).length := by
    rw [hfm, List.length_map]
    cases store with
    | nil => exact absurd rfl hne
    | cons a rest => simp
  simp only [loadXY]
  rw [if_pos hlen, hfm]

/-- Reduce `getitemW` once the window search result is known. -/
theorem getitemW_eq_some (X : List Tensor) (Y : Option (List Tensor)) (W : Nat)
    (llo : Bool) (g : Int) (i : Nat) (j : Int)
    (hs : seek (windowCounts (X.map Tensor.cols) W) g = some (i, j)) :
    getitemW X Y W llo g =
      (match Y with
       | none => .ok (sliceCols (X.getD i emptyT) j (j + (W : Int)), .empty)
       | some Ys =>
           match Ys[i]? with
           | none => .error .indexError
           | some yi =>
               if llo then
                 match pyGetCol yi (j + (W : Int) - 1) with
                 | none => .error .indexError
                 | some v => .ok (sliceCols (X.getD i emptyT) j (j + (W : Int)), .col v)
               else .ok (sliceCols (X.getD i emptyT) j (j + (W : Int)),
                         .win (sliceCols yi j (j + (W : Int))))) := by
  unfold getitemW
  rw [hs]

/-- Full characterization of windowed retrieval over an all-labelled
store: a valid index resolves to a unique series position and offset,
the data window is sliced from the data tensor of that series, and the
label result is taken from the label tensor of the same series. -/
theorem getitemW_store (store : List (Tensor × Option Tensor)) (W : Nat)
    (llo : Bool) (g : Int) (hW : 1 ≤ W)
    (hall : ∀ s ∈ store, s.2.isSome = true)
    (hT : ∀ s ∈ store, (s.2.getD emptyT).cols = s.1.cols)
    (hc : ∀ s ∈ store, W ≤ s.1.cols + 1)
    (hg0 : 0 ≤ g) (hlt : g < totalExamplesOf (loadXY store).1 W) :
    ∃ i : Nat, ∃ j : Nat, ∃ hi : i < store.length,
      seek (windowCounts ((loadXY store).1.map Tensor.cols) W) g = some (i, (j : Int)) ∧
      j + W ≤ (store.get ⟨i, hi⟩).1.cols ∧
      getitemW (loadXY store).1 (loadXY store).2 W llo g =
        Except.ok (sliceCols (store.get ⟨i, hi⟩).1 (j : Int) ((j : Int) + (W : Int)),
          if llo then
            LabelRes.col (((store.get ⟨i, hi⟩).2.getD emptyT).data.getD (j + W - 1) [])
          else
            LabelRes.win (sliceCols ((store.get ⟨i, hi⟩).2.getD emptyT)
              (j : Int) ((j : Int) + (W : Int)))) := by
  have hX : (loadXY store).1 = store.map Prod.fst := rfl
  have hnn : ∀ c ∈ windowCounts ((loadXY store).1.map Tensor.cols) W, 0 ≤ c := by
    apply windowCounts_nonneg
    intro T hTm
    obtain ⟨x, hx, rfl⟩ := List.mem_map.mp hTm
    rw [hX] at hx
    obtain ⟨s, hs, rfl⟩ := List.mem_map.mp hx
    exact hc s hs
  obtain ⟨i, k, hseek, hiC, hk0, hklt⟩ :=
    seek_valid _ hnn g hg0 (by exact hlt)
  have hlenC : (windowCounts ((loadXY store).1.map Tensor.cols) W).length =
      store.length := by
    simp [windowCounts, hX]
  have hi : i < store.length := by rw [hlenC] at hiC; exact hiC
  have hcountsEq : windowCounts ((loadXY store).1.map Tensor.cols) W =
      store.map (fun s => ((s.1.cols : Int) - W + 1)) := by
    rw [hX, windowCounts, List.map_map, List.map_map]
    rfl
  have hgetD : (windowCounts ((loadXY store).1.map Tensor.cols) W).getD i 0 =
      ((store.get ⟨i, hi⟩).1.cols : Int) - W + 1 := by
    rw [hcountsEq]
    exact getD_map_lt store _ i hi 0
  rw [hgetD] at hklt
  have hkj : ((k.toNat : Nat) : Int) = k := Int.toNat_of_nonneg hk0
  have hseek' : seek (windowCounts ((loadXY store).1.map Tensor.cols) W) g =
      some (i, ((k.toNat : Nat) : Int)) := by rw [hkj]; exact hseek
  have hbound : k.toNat + W ≤ (store.get ⟨i, hi⟩).1.cols := by omega
  have hXgetD : (loadXY store).1.getD i emptyT = (store.get ⟨i, hi⟩).1 := by
    rw [hX]
    exact getD_map_lt store Prod.fst i hi emptyT
  have hne : store ≠ [] := by
    intro hcontra
    rw [hcontra] at hi
    simp at hi
  have hY := loadXY_labels_all_some store hall hne
  have hYsi : (store.map (fun s => s.2.getD emptyT))[i]? =
      some ((store.get ⟨i, hi⟩).2.getD emptyT) := by
    rw [List.getElem?_map, List.getElem?_eq_getElem hi]
    simp [List.get_eq_getElem]
  have hyT : ((store.get ⟨i, hi⟩).2.getD emptyT).cols = (store.get ⟨i, hi⟩).1.cols :=
    hT (store.get ⟨i, hi⟩) (store.get_mem i hi)
  have hcol : pyGetCol ((store.get ⟨i, hi⟩).2.getD emptyT)
      (((k.toNat : Nat) : Int) + (W : Int) - 1) =
      some (((store.get ⟨i, hi⟩).2.getD emptyT).data.getD (k.toNat + W - 1) []) := by
    unfold pyGetCol
    have hcols : (((store.get ⟨i, hi⟩).2.getD emptyT).cols : Int) =
        ((store.get ⟨i, hi⟩).1.cols : Int) := by exact_mod_cast congrArg Nat.cast hyT
    rw [if_neg (by omega : ¬ (((k.toNat : Nat) : Int) + (W : Int) - 1 < 0))]
    rw [if_pos (by constructor <;> omega)]
    congr 1
    congr 1
    omega
  refine ⟨i, k.toNat, hi, hseek', hbound, ?_⟩
  rw [getitemW_eq_some _ _ _ _ _ i (((k.toNat : Nat) : Int)) hseek']
  cases llo with
  | true => simp only [hY, hYsi, hcol, hXgetD, if_true]
  | false => simp only [hY, hYsi, hXgetD, Bool.false_eq_true, if_false]

/-- Claim C6: with window length `W`, an all-labelled store, and a
valid index resolving to (series `i`, offset `j`), retrieval returns
as its label — when `last_label_only` is set — exactly the label
column of series `i` at time step `j + W - 1` (a single time step),
and otherwise the aligned label window `[j, j + W)` of series `i`. -/
theorem getitem_last_label_column (store : List (Tensor × Option Tensor)) (W : Nat)
    (llo : Bool) (g : Int) (hW : 1 ≤ W)
    (hall : ∀ s ∈ store, s.2.isSome = true)
    (hT : ∀ s ∈ store, (s.2.getD emptyT).cols = s.1.cols)
    (hc : ∀ s ∈ store, W ≤ s.1.cols + 1)
    (hg0 : 0 ≤ g) (hlt : g < totalExamplesOf (loadXY store).1 W) :
    ∃ i : Nat, ∃ j : Nat, ∃ hi : i < store.length,
      seek (windowCounts ((loadXY store).1.map Tensor.cols) W) g = some (i, (j : Int)) ∧
      getitemW (loadXY store).1 (loadXY store).2 W llo g =
        Except.ok (sliceCols (store.get ⟨i, hi⟩).1 (j : Int) ((j : Int) + (W : Int)),
          if llo then
            LabelRes.col (((store.get ⟨i, hi⟩).2.getD emptyT).data.getD (j + W - 1) [])
          else
            LabelRes.win (sliceCols ((store.get ⟨i, hi⟩).2.getD emptyT)
              (j : Int) ((j : Int) + (W : Int)))) := by
  obtain ⟨i, j, hi, hs, _, hres⟩ := getitemW_store store W llo g hW hall hT hc hg0 hlt
  exact ⟨i, j, hi, hs, hres⟩

/-- One-series store: three time steps of data and of labels. -/
def storeEx : List (Tensor × Option Tensor) :=
  [(⟨Dtype.float32, [[1], [2], [3]]⟩, some ⟨Dtype.float32, [[10], [20], [30]]⟩)]

/-- Witness for claim C6 at the concrete store, `W = 2`,
`last_label_only` set, global index 1. -/
theorem getitem_last_label_column_witness :
    ∃ i : Nat, ∃ j : Nat, ∃ hi : i < storeEx.length,
      seek (windowCounts ((loadXY storeEx).1.map Tensor.cols) 2) 1 = some (i, (j : Int)) ∧
      getitemW (loadXY storeEx).1 (loadXY storeEx).2 2 true 1 =
        Except.ok (sliceCols (storeEx.get ⟨i, hi⟩).1 (j : Int) ((j : Int) + ((2 : Nat) : Int)),
          if true then
            LabelRes.col (((storeEx.get ⟨i, hi⟩).2.getD emptyT).data.getD (j + 2 - 1) [])
          else
            LabelRes.win (sliceCols ((storeEx.get ⟨i, hi⟩).2.getD emptyT)
              (j : Int) ((j : Int) + ((2 : Nat) : Int)))) :=
  getitem_last_label_column storeEx 2 true 1 (by decide) (by decide) (by decide)
    (by decide) (by decide) (by decide)

/-- Claim C10: loading compacts the labels — with every included
series labelled, `Y` is exactly the per-series label list in series
order — and windowed retrieval pairs position `i` of `X` with position
`i` of `Y`, so for an all-labelled store every valid index returns a
data window and a label result drawn from the same series. -/
theorem getitem_alignment_all_labeled (store : List (Tensor × Option Tensor)) (W : Nat)
    (llo : Bool) (g : Int) (hW : 1 ≤ W)
    (hall : ∀ s ∈ store, s.2.isSome = true)
    (hT : ∀ s ∈ store, (s.2.getD emptyT).cols = s.1.cols)
    (hc : ∀ s ∈ store, W ≤ s.1.cols + 1)
    (hg0 : 0 ≤ g) (hlt : g < totalExamplesOf (loadXY store).1 W) :
    (loadXY store).2 = some (store.map (fun s => s.2.getD emptyT)) ∧
    ∃ i : Nat, ∃ j : Nat, ∃ hi : i < store.length, ∃ r : Tensor × LabelRes,
      getitemW (loadXY store).1 (loadXY store).2 W llo g = Except.ok r ∧
      r.1 = sliceCols (store.get ⟨i, hi⟩).1 (j : Int) ((j : Int) + (W : Int)) ∧
      (r.2 = LabelRes.col (((store.get ⟨i, hi⟩).2.getD emptyT).data.getD (j + W - 1) []) ∨
       r.2 = LabelRes.win (sliceCols ((store.get ⟨i, hi⟩).2.getD emptyT)
         (j : Int) ((j : Int) + (W : Int)))) := by
  obtain ⟨i, j, hi, hs, hb, hres⟩ := getitemW_store store W llo g hW hall hT hc hg0 hlt
  have hne : store ≠ [] := by
    intro hcontra
    rw [hcontra] at hi
    simp at hi
  refine ⟨loadXY_labels_all_some store hall hne, i, j, hi,
    (sliceCols (store.get ⟨i, hi⟩).1 (j : Int) ((j : Int) + (W : Int)),
     if llo then
       LabelRes.col (((store.get ⟨i, hi⟩).2.getD emptyT).data.getD (j + W - 1) [])
     else
       LabelRes.win (sliceCols ((store.get ⟨i, hi⟩).2.getD emptyT)
         (j : Int) ((j : Int) + (W : Int)))),
    hres, rfl, ?_⟩
  cases llo with
  | true => exact Or.inl (by simp)
  | false => exact Or.inr (by simp)

/-- Witness for claim C10 at the concrete store, `W = 2`, the full
label window, global index 0. -/
theorem getitem_alignment_witness :
    (loadXY storeEx).2 = some (storeEx.map (fun s => s.2.getD emptyT)) ∧
    ∃ i : Nat, ∃ j : Nat, ∃ hi : i < storeEx.length, ∃ r : Tensor × LabelRes,
      getitemW (loadXY storeEx).1 (loadXY storeEx).2 2 false 0 = Except.ok r ∧
      r.1 = sliceCols (storeEx.get ⟨i, hi⟩).1 (j : Int) ((j : Int) + ((2 : Nat) : Int)) ∧
      (r.2 = LabelRes.col (((storeEx.get ⟨i, hi⟩).2.getD emptyT).data.getD (j + 2 - 1) []) ∨
       r.2 = LabelRes.win (sliceCols ((storeEx.get ⟨i, hi⟩).2.getD emptyT)
         (j : Int) ((j : Int) + ((2 : Nat) : Int)))) :=
  getitem_alignment_all_labeled storeEx 2 false 0 (by decide) (by decide) (by decide)
    (by decide) (by decide) (by decide)
